import Mathlib

/-!
Verification of the sherlock SSH client core (`pkg/sshclient`).

This development shallowly embeds the Go code of `pkg/sshclient/client.go`,
`pkg/sshclient/local.go` and the SSH-config/known-hosts helper file into
Lean 4 and proves the specified properties about the embedding.

Go strings are embedded as Lean `String`, with the Go standard-library
string operations re-implemented over the underlying character list
(`String.data`) so that every definition is executable by the kernel.
Machine integers (`int`) are embedded as `Int`.

Outside collaborators (the SSH transport, the agent socket, the
filesystem, the `knownhosts` library) are embedded as explicit parameters:
a connection dial becomes an `Option` handle, a private-key load becomes a
success predicate, the remote side of a command execution becomes a
function from the command string to the observed response.
-/

namespace Sherlock

/-! ### Go string primitives, re-implemented over character lists -/

/-- The single-quote character, written via its code point. -/
def sq : Char := Char.ofNat 39

/-- The backslash character, written via its code point. -/
def bs : Char := Char.ofNat 92

/-- The backtick character, written via its code point. -/
def bt : Char := Char.ofNat 96

/-- A one-character string holding a single quote. -/
def sqStr : String := ⟨[sq]⟩

/-- Embedding of `strings.HasPrefix s p` from Go. -/
def strStarts (s p : String) : Bool := p.data.isPrefixOf s.data

/-- Embedding of `strings.HasSuffix s p` from Go. -/
def strEnds (s p : String) : Bool := p.data.isSuffixOf s.data

/-- Trim leading and trailing whitespace from a character list. -/
def listTrim (cs : List Char) : List Char :=
  ((cs.dropWhile (fun c => c.isWhitespace)).reverse.dropWhile
    (fun c => c.isWhitespace)).reverse

/-- Embedding of `strings.TrimSpace` from Go. -/
def strTrim (s : String) : String := ⟨listTrim s.data⟩

/-- Drop the first `n` characters of a string (Go slicing `s[n:]` on
ASCII-leading strings). -/
def strDrop (s : String) (n : Nat) : String := ⟨s.data.drop n⟩

/-- Drop the last character of a string (Go slicing `s[:len(s)-1]` when the
last character is ASCII). -/
def strDropLast (s : String) : String := ⟨s.data.dropLast⟩

/-- Embedding of `strings.TrimPrefix s p` from Go: remove `p` from the front of `s` when
present. -/
def strTrimFront (s p : String) : String :=
  if strStarts s p then ⟨s.data.drop p.data.length⟩ else s

/-- The UTF-8 byte length of a string, the Go `len` of a string. -/
def utf8Len (s : String) : Nat := (s.data.map Char.utf8Size).sum

/-! ### `ShellEscape` (client.go) and a POSIX shell field splitter -/

/-- Character-level form of the `strings.ReplaceAll` call in `ShellEscape`:
every single quote becomes close-quote, backslash-escaped quote,
reopen-quote. -/
def escQuote : List Char → List Char
  | [] => []
  | c :: rest =>
    if c = sq then sq :: bs :: sq :: sq :: escQuote rest
    else c :: escQuote rest

/-- Embedding of `ShellEscape` from client.go: wrap in single quotes, escaping any single
quotes within. -/
def ShellEscape (s : String) : String := ⟨sq :: (escQuote s.data ++ [sq])⟩

/-- Scanner mode of the POSIX shell field splitter: outside quotes, inside
single quotes, inside double quotes, after a backslash outside quotes, and
after a backslash inside double quotes. -/
inductive ShMode
  | norm
  | insq
  | indq
  | esc
  | escdq
deriving DecidableEq

/-- Unquoted shell metacharacters: encountering one of these outside quotes
means the input is not parsed as a plain literal word. -/
def shellMeta (c : Char) : Bool :=
  c = '$' ∨ c = bt ∨ c = '|' ∨ c = '&' ∨ c = ';' ∨
  c = '(' ∨ c = ')' ∨ c = '<' ∨ c = '>'

/-- A POSIX shell field splitter over characters.  It returns the list of
words a shell would see, every quoting construct removed, or `none` when
the input contains an unquoted metacharacter (an expansion or an operator
would be interpreted) or an unterminated quote/escape.
Arguments: remaining input, scanner mode, current word, whether a current
word has been started, completed words. -/
def shellFields : List Char → ShMode → List Char → Bool → List String →
    Option (List String)
  | [], .norm, acc, started, ws =>
    some (if started then ws ++ [⟨acc⟩] else ws)
  | [], _, _, _, _ => none
  | c :: rest, .norm, acc, started, ws =>
    if c = ' ' ∨ c = '\t' then
      if started then shellFields rest .norm [] false (ws ++ [⟨acc⟩])
      else shellFields rest .norm [] false ws
    else if c = sq then shellFields rest .insq acc true ws
    else if c = '"' then shellFields rest .indq acc true ws
    else if c = bs then shellFields rest .esc acc started ws
    else if shellMeta c then none
    else shellFields rest .norm (acc ++ [c]) true ws
  | c :: rest, .insq, acc, _, ws =>
    if c = sq then shellFields rest .norm acc true ws
    else shellFields rest .insq (acc ++ [c]) true ws
  | c :: rest, .indq, acc, _, ws =>
    if c = '"' then shellFields rest .norm acc true ws
    else if c = '$' ∨ c = bt then none
    else if c = bs then shellFields rest .escdq acc true ws
    else shellFields rest .indq (acc ++ [c]) true ws
  | c :: rest, .esc, acc, _, ws =>
    shellFields rest .norm (acc ++ [c]) true ws
  | c :: rest, .escdq, acc, _, ws =>
    if c = '$' ∨ c = bt ∨ c = '"' ∨ c = bs then
      shellFields rest .indq (acc ++ [c]) true ws
    else shellFields rest .indq (acc ++ [bs, c]) true ws

/-- Split a string into the fields a POSIX shell would parse it into. -/
def parseShellFields (s : String) : Option (List String) :=
  shellFields s.data .norm [] false []

/-! ### Data model (client.go, SSH-config helper file) -/

/-- Embedding of `HostInfo` from client.go. -/
structure HostInfo where
  host : String
  port : Int
  user : String
deriving DecidableEq

/-- Embedding of `SSHConfigHost` from the SSH-config helper file. -/
structure SSHConfigHost where
  host : String
  hostname : String
  port : Int
  user : String
  identityFile : List String
deriving DecidableEq

/-- A signing credential in the authentication plan: either one obtained
from the SSH agent (identified by its index in the agent list) or one
loaded from a private-key file (identified by the file path). -/
inductive Signer
  | agentSig (i : Nat)
  | fileSig (path : String)
deriving DecidableEq

/-- An `ssh.AuthMethod` entry as built by `NewClient`: either
`ssh.PublicKeys(signers...)` or `ssh.Password(pw)`. -/
inductive SSHAuthMethod
  | publicKeys (signers : List Signer)
  | password (pw : String)
deriving DecidableEq

/-- True for the combined public-key entry. -/
def isPublicKeysMethod : SSHAuthMethod → Bool
  | .publicKeys _ => true
  | .password _ => false

/-- True for the password entry. -/
def isPasswordMethod : SSHAuthMethod → Bool
  | .publicKeys _ => false
  | .password _ => true

/-! ### Host alias resolver (`SSHConfig.GetHost`, `patternSpecificity`,
`matchHostPattern`)

The Go `SSHConfig` stores its host entries in a map `map[string]*SSHConfigHost`.
`GetHost` does an exact map lookup first and otherwise scans the map with
`range`, whose iteration order Go deliberately randomizes.  The map is
embedded as an association list whose list order stands for one concrete
iteration order; properties that must hold for every iteration order are
quantified over permutations of the list. -/

/-- Embedding of `matchHostPattern` from the SSH-config helper file: `*` matches
everything, a leading `*` matches by suffix, a trailing `*` matches by
front part, otherwise the pattern must equal the host. -/
def matchHostPattern (pattern host : String) : Bool :=
  if pattern = "*" then true
  else if strStarts pattern "*" then strEnds host (strDrop pattern 1)
  else if strEnds pattern "*" then strStarts host (strDropLast pattern)
  else pattern == host

/-- Embedding of `patternSpecificity` from the SSH-config helper file: the pattern `*` scores 0,
otherwise the byte length minus the number of `*` characters. -/
def patternSpecificity (pattern : String) : Int :=
  if pattern = "*" then 0
  else (utf8Len pattern : Int) - (pattern.data.count '*' : Int)

/-- The wildcard scan loop of `GetHost`: walk the entries in the given
iteration order keeping the best match and its specificity (initially
`none` and `-1`), replacing it whenever a matching pattern is strictly
more specific. -/
def bestWildcard (host : String) :
    List (String × SSHConfigHost) → Option SSHConfigHost × Int →
    Option SSHConfigHost × Int
  | [], best => best
  | (pattern, h) :: rest, (bestMatch, bestSpec) =>
    if matchHostPattern pattern host ∧ bestSpec < patternSpecificity pattern
    then bestWildcard host rest (some h, patternSpecificity pattern)
    else bestWildcard host rest (bestMatch, bestSpec)

/-- Embedding of `SSHConfig.GetHost`: exact lookup first, then the wildcard scan. -/
def GetHost (tbl : List (String × SSHConfigHost)) (host : String) :
    Option SSHConfigHost :=
  match tbl.find? (fun e => e.1 == host) with
  | some e => some e.2
  | none => (bestWildcard host tbl (none, -1)).1

/-- Embedding of `applySSHConfig` from client.go: merge a resolved alias entry into the
caller `HostInfo` and surface the identity files of the alias. -/
def applySSHConfig (tbl : List (String × SSHConfigHost)) (hostInfo : HostInfo) :
    HostInfo × List String :=
  match GetHost tbl hostInfo.host with
  | none => (hostInfo, [])
  | some configHost =>
    let r1 := if configHost.hostname ≠ "" then
      { hostInfo with host := configHost.hostname } else hostInfo
    let r2 := if hostInfo.port = 22 ∧ configHost.port ≠ 22 then
      { r1 with port := configHost.port } else r1
    let r3 := if hostInfo.user = "" ∧ configHost.user ≠ "" then
      { r2 with user := configHost.user } else r2
    (r3, configHost.identityFile)

/-! ### Host trust store (`CreateHostKeyCallback`)

The outside `knownhosts` library is embedded by its contract: its
callback, built over the persisted store, answers `ok` for a recorded
matching key, a `KeyError` with an empty `Want` list for a hostname with
no record, and a `KeyError` listing the recorded keys on a mismatch.
The store itself is a list of (hostname, key fingerprint) records, and
`none` stands for an absent/unreadable store file. -/

/-- Outcome of the `knownhosts` callback. -/
inductive HostKeyResult
  | ok
  | keyErr (want : List String)
deriving DecidableEq

/-- All fingerprints recorded for a hostname. -/
def knownFingerprints (entries : List (String × String)) (hostname : String) :
    List String :=
  (entries.filter (fun e => e.1 == hostname)).map (fun e => e.2)

/-- The callback produced by `knownhosts.New` over a readable store. -/
def knownHostsVerify (entries : List (String × String))
    (hostname key : String) : HostKeyResult :=
  let fps := knownFingerprints entries hostname
  if fps.isEmpty then .keyErr []
  else if key ∈ fps then .ok
  else .keyErr fps

/-- Embedding of `CreateHostKeyCallback` from the SSH-config helper file, as the
accept/reject decision it makes for a presented hostname and key
fingerprint.  `store = none` embeds an absent or unreadable known-hosts
file. -/
def CreateHostKeyCallback (strictHostKeyChecking : Bool)
    (store : Option (List (String × String))) (hostname key : String) : Bool :=
  match store with
  | none => if strictHostKeyChecking then false else true
  | some entries =>
    match knownHostsVerify entries hostname key, strictHostKeyChecking with
    | .ok, _ => true
    | .keyErr _, true => false
    | .keyErr [], false => true
    | .keyErr (_ :: _), false => false

/-! ### Credential resolver (`NewClient`, client.go)

The ambient machine state consulted by `NewClient` — the agent signers,
whether a private-key file loads with a given passphrase, the default key
path list, and the parsed SSH config — is passed in explicitly. -/

/-- Embedding of `Config` from client.go (the connection timeout is irrelevant to the
properties below and omitted). -/
structure Config where
  hostInfo : Option HostInfo
  password : String
  privateKeyPath : String
  privateKeyPassphrase : String
  strictHostKeyChecking : Bool
  useSSHConfig : Option Bool

/-- Ambient machine state read by `NewClient`. -/
structure Env where
  agentSigners : List Nat
  loadKey : String → String → Bool
  defaultKeyPaths : List String
  sshConfigTable : Option (List (String × SSHConfigHost))

/-- One private-key probing loop of `NewClient`: for each path not already
tried, attempt to load it with the given passphrase; on success append its
signer and mark the path tried. -/
def tryAddKeys (env : Env) (passphrase : String) :
    List String → List Signer × List String → List Signer × List String
  | [], st => st
  | keyPath :: rest, (signers, tried) =>
    if keyPath ∈ tried then tryAddKeys env passphrase rest (signers, tried)
    else if env.loadKey keyPath passphrase then
      tryAddKeys env passphrase rest
        (signers ++ [.fileSig keyPath], tried ++ [keyPath])
    else tryAddKeys env passphrase rest (signers, tried)

/-- The effective host info and identity files used by `NewClient`: apply
the SSH config when enabled and parseable. -/
def resolvedHostInfo (cfg : Config) (env : Env) (hi : HostInfo) :
    HostInfo × List String :=
  if cfg.useSSHConfig = none ∨ cfg.useSSHConfig = some true then
    match env.sshConfigTable with
    | some tbl => applySSHConfig tbl hi
    | none => (hi, [])
  else (hi, [])

/-- Signer collection of `NewClient`, step 1: all agent signers, with no
file path tried yet. -/
def agentStage (env : Env) : List Signer × List String :=
  (env.agentSigners.map .agentSig, [])

/-- Signer collection of `NewClient`, step 2: probe the SSH-config
identity files. -/
def configFilesStage (env : Env) (idFiles : List String) :
    List Signer × List String :=
  tryAddKeys env "" idFiles (agentStage env)

/-- Signer collection of `NewClient`, step 3: probe the explicitly
configured key path with its passphrase, unless empty or already tried. -/
def explicitKeyStage (cfg : Config) (env : Env) (idFiles : List String) :
    List Signer × List String :=
  if cfg.privateKeyPath ≠ "" ∧
      cfg.privateKeyPath ∉ (configFilesStage env idFiles).2 then
    if env.loadKey cfg.privateKeyPath cfg.privateKeyPassphrase then
      ((configFilesStage env idFiles).1 ++ [.fileSig cfg.privateKeyPath],
        (configFilesStage env idFiles).2 ++ [cfg.privateKeyPath])
    else configFilesStage env idFiles
  else configFilesStage env idFiles

/-- Signer collection of `NewClient`: agent signers first, then SSH-config
identity files, then the explicitly configured key, then the default key
paths, each file-based route deduplicated through the tried-path set. -/
def collectSigners (cfg : Config) (env : Env) (idFiles : List String) :
    List Signer :=
  (tryAddKeys env "" env.defaultKeyPaths (explicitKeyStage cfg env idFiles)).1

/-- The authentication method list `NewClient` builds: one combined
public-key method when any signer was collected, then one password method
when a password was supplied. -/
def buildAuthMethods (signers : List Signer) (password : String) :
    List SSHAuthMethod :=
  (if signers.isEmpty then [] else [.publicKeys signers]) ++
  (if password = "" then [] else [.password password])

/-- The value `NewClient` returns on success. -/
structure ClientPlan where
  hostInfo : HostInfo
  authMethods : List SSHAuthMethod
  agentConnOpen : Bool
deriving DecidableEq

/-- Embedding of `NewClient` from client.go. -/
def NewClient (cfg : Config) (env : Env) : Except String ClientPlan :=
  match cfg.hostInfo with
  | none => .error "host info is required"
  | some hi =>
    let r := resolvedHostInfo cfg env hi
    if r.1.user = "" then .error "user is required"
    else
      let allSigners := collectSigners cfg env r.2
      let authMethods := buildAuthMethods allSigners cfg.password
      if authMethods.isEmpty then
        .error "at least one authentication method is required"
      else
        .ok { hostInfo := r.1, authMethods := authMethods,
              agentConnOpen := ¬env.agentSigners.isEmpty }

/-! ### Session transport state (`Client.Connect`, `Client.Close`,
`Client.IsConnected`, client.go)

The mutable fields of the Go `Client` are embedded as a state record;
the `ssh.Client` handle and the agent connection are abstract `Option Nat`
handles.  The outcome of `ssh.Dial` is an explicit parameter of
`Connect`: `some h` for a successful dial returning handle `h`, `none`
for a dial or authentication failure. -/

/-- The mutable state of a Go `Client`. -/
structure ClientState where
  isConnected : Bool
  client : Option Nat
  agentConn : Option Nat
  cwd : String
deriving DecidableEq

/-- The state of a client just built by `NewClient`: not connected, no
transport handle, no tracked directory. -/
def initialClientState (agentConn : Option Nat) : ClientState :=
  { isConnected := false, client := none, agentConn := agentConn, cwd := "" }

/-- Embedding of `Client.Connect`: a no-op when already connected; otherwise adopt the
dialed handle and flip to connected, or fail leaving the state unchanged.
The returned Bool is true when no error is returned. -/
def Connect (c : ClientState) (dialResult : Option Nat) : ClientState × Bool :=
  if c.isConnected then (c, true)
  else
    match dialResult with
    | none => (c, false)
    | some h => ({ c with client := some h, isConnected := true }, true)

/-- Embedding of `Client.Close`: always closes and drops the agent connection; when
connected with a live handle, flips to disconnected (the transport handle
field itself is not cleared by the Go code). -/
def Close (c : ClientState) : ClientState :=
  let c1 := { c with agentConn := (none : Option Nat) }
  if ¬c1.isConnected ∨ c1.client = none then c1
  else { c1 with isConnected := false }

/-- Embedding of `Client.IsConnected`. -/
def IsConnected (c : ClientState) : Bool :=
  c.isConnected && c.client.isSome

/-! ### Batch executor (`Client.Execute`, client.go)

The remote side is embedded as an environment: whether opening a new
session succeeds, what a remote run of a given command produces, and the
local `TERM` environment variable. -/

/-- What the remote side reports for one `session.Run`: captured output
plus either a clean exit, an `ssh.ExitError` carrying an exit status, or a
transport-level failure. -/
inductive RunOutcome
  | ok
  | exit (code : Int)
  | fail (msg : String)
deriving DecidableEq

/-- Captured response of one remote command run. -/
structure RemoteResp where
  stdout : String
  stderr : String
  outcome : RunOutcome
deriving DecidableEq

/-- Embedding of `ExecuteResult` from client.go. -/
structure ExecuteResult where
  stdout : String := ""
  stderr : String := ""
  exitCode : Int := 0
  error : Option String := none
deriving DecidableEq

/-- The remote environment one `Execute` call observes. -/
structure RemoteEnv where
  sessionOk : Bool
  run : String → RemoteResp
  termEnv : String

/-- Embedding of `isValidTermType` from client.go: nonempty and only alphanumerics,
hyphen, underscore. -/
def isValidTermType (t : String) : Bool :=
  ¬t.data.isEmpty ∧
  t.data.all (fun c =>
    (('a' ≤ c ∧ c ≤ 'z') ∨ ('A' ≤ c ∧ c ≤ 'Z') ∨
     ('0' ≤ c ∧ c ≤ '9') ∨ c = '-' ∨ c = '_' : Bool))

/-- The cd-command test of `Execute` (applied after trimming). -/
def isCdCommand (command : String) : Bool :=
  strStarts command "cd " ∨ command = "cd"

/-- The cd target extracted by `Execute`: strip the leading `cd`, trim,
and default to `~` when empty. -/
def cdTargetOf (command : String) : String :=
  let target := strTrim (strTrimFront command "cd")
  if target = "" then "~" else target

/-- The combined resolve-and-print command `Execute` sends for a cd: for a
relative target with a tracked directory, change into the tracked
directory first; then change into the target and print the absolute
path. -/
def cdResolveCmd (cwd target : String) : String :=
  if cwd ≠ "" ∧ target ≠ "" ∧ ¬strStarts target "/" ∧ ¬strStarts target "~"
  then "cd " ++ ShellEscape cwd ++ " && cd " ++ ShellEscape target ++ " && pwd"
  else "cd " ++ ShellEscape target ++ " && pwd"

/-- The `TERM` value `Execute` exports: the local value when valid, else
the safe default. -/
def effectiveTermType (termEnv : String) : String :=
  if termEnv = "" ∨ ¬isValidTermType termEnv then "xterm-256color" else termEnv

/-- How the cd branch of `Execute` reacts to the remote response to the
resolve command: on success adopt the printed (trimmed, nonempty) absolute
path as the tracked directory and report an empty result; on an exit error
keep the state and surface output and exit code; on a transport error keep
the state and surface output and the error. -/
def cdApply (c : ClientState) (resp : RemoteResp) :
    ClientState × ExecuteResult :=
  match resp.outcome with
  | .ok =>
    (if strTrim resp.stdout ≠ "" then { c with cwd := strTrim resp.stdout }
     else c, {})
  | .exit code =>
    (c, { stdout := resp.stdout, stderr := resp.stderr, exitCode := code })
  | .fail msg =>
    (c, { stdout := resp.stdout, stderr := resp.stderr, error := some msg })

/-- How the non-cd branch of `Execute` turns the remote response into a
result: output always captured; an exit error fills `exitCode`; a
transport error fills `error`. -/
def runApply (c : ClientState) (resp : RemoteResp) :
    ClientState × ExecuteResult :=
  match resp.outcome with
  | .ok => (c, { stdout := resp.stdout, stderr := resp.stderr })
  | .exit code =>
    (c, { stdout := resp.stdout, stderr := resp.stderr, exitCode := code })
  | .fail msg =>
    (c, { stdout := resp.stdout, stderr := resp.stderr, error := some msg })

/-- The full command `Execute` sends for a non-cd command: the `TERM`
export followed by a change into the tracked directory (when one is
tracked) and the command itself. -/
def execFullCommand (env : RemoteEnv) (c : ClientState) (command : String) :
    String :=
  "export TERM=" ++ sqStr ++ effectiveTermType env.termEnv ++ sqStr ++ "; " ++
  (if c.cwd ≠ "" then "cd " ++ ShellEscape c.cwd ++ " && " ++ command
   else command)

/-- Embedding of `Client.Execute` from client.go, returning the updated client state
and the execution result. -/
def Execute (env : RemoteEnv) (c : ClientState) (command0 : String) :
    ClientState × ExecuteResult :=
  if ¬c.isConnected then (c, { error := some "not connected" })
  else if ¬env.sessionOk then (c, { error := some "failed to create session" })
  else if isCdCommand (strTrim command0) then
    cdApply c (env.run (cdResolveCmd c.cwd (cdTargetOf (strTrim command0))))
  else
    runApply c (env.run (execFullCommand env c (strTrim command0)))

/-! ### Local executor (LocalClient)

Modelled from the spec: the current `LocalClient` working
directory tracking (`GetCwd` and the cd handling inside
`LocalClient.Execute`, exercised by `TestLocalClientCd`) is not present in
the source tree — the `pkg/sshclient/local.go` included there is an
earlier revision without it.  Per the spec, a bare `cd`/`cd <target>`
updates an in-memory tracked directory by resolving it locally against the
real filesystem (no round trip), and every other command executes with the
tracked directory as its working directory.  The local filesystem and
subshell are explicit parameters. -/

/-- Modelled from the spec: the local machine a `LocalClient` consults —
directory resolution against the real filesystem (`none` when the target
does not exist) and running a command in a given working directory. -/
structure LocalFS where
  resolve : String → String → Option String
  run : String → String → ExecuteResult
  home : String

/-- Modelled from the spec: the in-memory state of a `LocalClient`, the
tracked working directory. -/
structure LocalClientState where
  cwd : String
deriving DecidableEq

/-- Modelled from the spec: recognize a directory-change command, yielding
`some ""` for a bare `cd` (meaning: go home) and `some target`
otherwise. -/
def parseCdTarget (command : String) : Option String :=
  if command = "cd" then some ""
  else if strStarts command "cd " then some (strTrim (strDrop command 3))
  else none

/-- Modelled from the spec: `LocalClient.Execute` — a `cd` resolves its
target locally against the tracked directory and updates it on success,
leaving it unchanged with a nonzero exit on failure; any other command
runs in the tracked directory. -/
def LocalExecute (fs : LocalFS) (c : LocalClientState) (command : String) :
    LocalClientState × ExecuteResult :=
  match parseCdTarget command with
  | some t =>
    let target := if t = "" then fs.home else t
    match fs.resolve c.cwd target with
    | some dir => ({ cwd := dir }, {})
    | none =>
      (c, { stderr := "cd: " ++ target ++ ": No such file or directory",
            exitCode := 1 })
  | none => (c, fs.run c.cwd command)

/-! ### Concrete inputs used by the witness theorems -/

/-- A configuration with only a password, SSH config disabled. -/
def cfgPw : Config :=
  { hostInfo := some ⟨"h", 22, "u"⟩, password := "pw", privateKeyPath := "",
    privateKeyPassphrase := "", strictHostKeyChecking := false,
    useSSHConfig := some false }

/-- A machine with no agent, no loadable keys, no SSH config. -/
def envBare : Env :=
  { agentSigners := [], loadKey := fun _ _ => false, defaultKeyPaths := [],
    sshConfigTable := none }

/-- A configuration naming `/k` as the explicit private key. -/
def cfgKey : Config :=
  { hostInfo := some ⟨"h", 22, "u"⟩, password := "", privateKeyPath := "/k",
    privateKeyPassphrase := "", strictHostKeyChecking := false,
    useSSHConfig := some false }

/-- A machine where only the file `/k` loads as a key, and `/k` is also a
default key path — the same path reachable via two discovery routes. -/
def envKey : Env :=
  { agentSigners := [], loadKey := fun p _ => p == "/k",
    defaultKeyPaths := ["/k"], sshConfigTable := none }

/-- An alias entry whose pattern is `a*`. -/
def entA : SSHConfigHost := ⟨"a*", "hostA", 22, "", []⟩

/-- An alias entry whose pattern is `*a`. -/
def entB : SSHConfigHost := ⟨"*a", "hostB", 22, "", []⟩

/-- An alias entry for the wildcard pattern `*.prod.example.com`. -/
def entProd : SSHConfigHost := ⟨"*.prod.example.com", "prod-gw", 22, "", []⟩

/-- An alias entry for the catch-all pattern `*`. -/
def entStar : SSHConfigHost := ⟨"*", "fallback-gw", 22, "", []⟩

/-- An alias entry with an exact-name pattern. -/
def entExact : SSHConfigHost := ⟨"db1.prod.example.com", "db1-direct", 22, "", []⟩

/-- A connected client tracking the directory `/home`. -/
def clientConn : ClientState := ⟨true, some 1, none, "/home"⟩

/-- A remote on which every run fails with exit status 1 and a
no-such-directory message. -/
def envCdFail : RemoteEnv :=
  ⟨true, fun _ => ⟨"", "cd: /nope: No such file or directory", .exit 1⟩, ""⟩

/-- A remote on which every run succeeds printing `/resolved`. -/
def envCdOk : RemoteEnv := ⟨true, fun _ => ⟨"/resolved", "", .ok⟩, ""⟩

/-- A local filesystem on which only `/d` resolves, and the runner reports
the working directory it was given as stdout. -/
def fsW : LocalFS :=
  ⟨fun _ t => if t = "/d" then some "/d" else none,
   fun d cmd => ⟨d, cmd, 0, none⟩, "/h"⟩

/-! ## Theorems -/

/-- C6: in an alias merge, a caller port other than 22 and a nonempty
caller user are never overridden by the alias entry, while a nonempty
alias hostname always replaces the host. -/
theorem applySSHConfig_merge (tbl : List (String × SSHConfigHost))
    (hi : HostInfo) (ch : SSHConfigHost) (h : GetHost tbl hi.host = some ch) :
    (hi.port ≠ 22 → ((applySSHConfig tbl hi).1).port = hi.port) ∧
    (hi.user ≠ "" → ((applySSHConfig tbl hi).1).user = hi.user) ∧
    (ch.hostname ≠ "" → ((applySSHConfig tbl hi).1).host = ch.hostname) := by
  unfold applySSHConfig
  rw [h]
  dsimp only
  refine ⟨fun hx => ?_, fun hx => ?_, fun hx => ?_⟩ <;> split_ifs <;> simp_all

/-- Witness for `applySSHConfig_merge`: a concrete alias entry for a
caller with an explicit port and user. -/
theorem applySSHConfig_merge_witness :
    (((applySSHConfig [("alias", ⟨"alias", "real.example.com", 2222, "bob", []⟩)]
        ⟨"alias", 2200, "alice"⟩).1).port = 2200 ∧
     ((applySSHConfig [("alias", ⟨"alias", "real.example.com", 2222, "bob", []⟩)]
        ⟨"alias", 2200, "alice"⟩).1).user = "alice" ∧
     ((applySSHConfig [("alias", ⟨"alias", "real.example.com", 2222, "bob", []⟩)]
        ⟨"alias", 2200, "alice"⟩).1).host = "real.example.com") := by
  obtain ⟨h1, h2, h3⟩ :=
    applySSHConfig_merge
      [("alias", ⟨"alias", "real.example.com", 2222, "bob", []⟩)]
      ⟨"alias", 2200, "alice"⟩ ⟨"alias", "real.example.com", 2222, "bob", []⟩
      (by rfl)
  exact ⟨h1 (by decide), h2 (by decide), h3 (by decide)⟩

/-- C3 counterexample: on the state of a freshly built client, connect
(successful dial), close, then connect again (successful dial) — after the
close the state is disconnected, yet the second connect on the same object
re-enters the connected state, so the Disconnected state reached by an
explicit close is not terminal. -/
theorem close_then_connect_reenters_connected :
    (Close (Connect (initialClientState none) (some 1)).1).isConnected
        = false ∧
    (Connect (Close (Connect (initialClientState none) (some 1)).1)
        (some 2)).1.isConnected = true := by
  decide

/-- C3 amended: for every client state whose connected flag implies a live
handle (which holds for all states the API can reach), `Close` leaves the
client reporting disconnected — but a subsequent `Connect` on the same
object is not guarded and, when its dial succeeds, re-enters the connected
state; no new client object is required. -/
theorem close_disconnects_connect_reconnects (c : ClientState)
    (hinv : c.isConnected = true → c.client ≠ none) :
    IsConnected (Close c) = false ∧
    ∀ h : Nat, IsConnected (Connect (Close c) (some h)).1 = true := by
  unfold Close Connect IsConnected
  by_cases hc : c.isConnected = true
  · have hcl : c.client ≠ none := hinv hc
    constructor
    · simp [hc, hcl]
    · intro h
      simp [hc, hcl]
  · rw [Bool.not_eq_true] at hc
    constructor
    · simp [hc]
    · intro h
      simp [hc]

/-- Witness for `close_disconnects_connect_reconnects` at a concrete
connected state. -/
theorem close_disconnects_connect_reconnects_witness :
    IsConnected (Close ⟨true, some 5, some 3, "/x"⟩) = false ∧
    IsConnected (Connect (Close ⟨true, some 5, some 3, "/x"⟩) (some 7)).1
      = true := by
  obtain ⟨h1, h2⟩ :=
    close_disconnects_connect_reconnects ⟨true, some 5, some 3, "/x"⟩
      (by decide)
  exact ⟨h1, h2 7⟩

/-- C4: with a readable trust store in lenient mode, a hostname with no
recorded fingerprint is accepted for any presented key; and a hostname
whose sole recorded fingerprint differs from the presented one is
rejected in lenient and in strict mode alike. -/
theorem trust_verify_lenient_and_mismatch (entries : List (String × String))
    (hostname key f1 : String) :
    (knownFingerprints entries hostname = [] →
      CreateHostKeyCallback false (some entries) hostname key = true) ∧
    (knownFingerprints entries hostname = [f1] → key ≠ f1 →
      CreateHostKeyCallback false (some entries) hostname key = false ∧
      CreateHostKeyCallback true (some entries) hostname key = false) := by
  constructor
  · intro h
    simp [CreateHostKeyCallback, knownHostsVerify, h]
  · intro h hk
    simp [CreateHostKeyCallback, knownHostsVerify, h, hk]

/-- Witness for `trust_verify_lenient_and_mismatch`: a store recording
only `hostA` with fingerprint `F1`; `hostB` is unknown and accepted in
lenient mode, while `hostA` presenting `F2` is rejected in both modes. -/
theorem trust_verify_witness :
    CreateHostKeyCallback false (some [("hostA", "F1")]) "hostB" "F9" = true ∧
    CreateHostKeyCallback false (some [("hostA", "F1")]) "hostA" "F2" = false ∧
    CreateHostKeyCallback true (some [("hostA", "F1")]) "hostA" "F2" = false := by
  refine ⟨?_, ?_⟩
  · exact (trust_verify_lenient_and_mismatch [("hostA", "F1")] "hostB" "F9"
      "F1").1 (by decide)
  · exact (trust_verify_lenient_and_mismatch [("hostA", "F1")] "hostA" "F2"
      "F1").2 (by decide) (by decide)

/-- The auth method list built by `NewClient` is fully determined by the
collected signers and the password: at most one combined public-key entry
(exactly when a signer exists, holding all signers), at most one password
entry (exactly when a password was supplied), never more than two. -/
theorem buildAuthMethods_facts (S : List Signer) (pw : String) :
    ((buildAuthMethods S pw).countP (fun m => isPublicKeysMethod m) =
      if S.isEmpty then 0 else 1) ∧
    (∀ ms, SSHAuthMethod.publicKeys ms ∈ buildAuthMethods S pw → ms = S) ∧
    ((buildAuthMethods S pw).countP (fun m => isPasswordMethod m) =
      if pw = "" then 0 else 1) ∧
    (buildAuthMethods S pw).length ≤ 2 := by
  unfold buildAuthMethods
  split_ifs <;>
    simp_all [List.countP_append, List.countP_cons, isPublicKeysMethod,
      isPasswordMethod]

/-- Inversion of a successful `NewClient`: a successful construction
names the host info, its plan, and passes both guards. -/
theorem newClient_ok_inversion (cfg : Config) (env : Env) (c : ClientPlan)
    (h : NewClient cfg env = .ok c) :
    ∃ hi, cfg.hostInfo = some hi ∧
      (resolvedHostInfo cfg env hi).1.user ≠ "" ∧
      c.authMethods =
        buildAuthMethods (collectSigners cfg env (resolvedHostInfo cfg env hi).2)
          cfg.password ∧
      c.authMethods ≠ [] := by
  unfold NewClient at h
  cases hhi : cfg.hostInfo with
  | none => rw [hhi] at h; exact absurd h (by simp)
  | some hi =>
    rw [hhi] at h
    dsimp only at h
    split_ifs at h with h1 h2
    injection h with hc
    refine ⟨hi, rfl, h1, ?_, ?_⟩
    · rw [← hc]
    · rw [← hc]
      simp only
      intro hemp
      rw [hemp] at h2
      exact h2 rfl

/-- C1: every successful client construction yields an authentication
plan holding exactly one combined public-key method — present exactly when
at least one signer was collected, and offering all collected signers
together, never one method per key — plus exactly one password method when
a password was supplied: never more than two entries in total. -/
theorem newClient_auth_plan (cfg : Config) (env : Env) (c : ClientPlan)
    (h : NewClient cfg env = .ok c) :
    ∃ hi, cfg.hostInfo = some hi ∧
      (c.authMethods.countP (fun m => isPublicKeysMethod m) =
        if (collectSigners cfg env (resolvedHostInfo cfg env hi).2).isEmpty
        then 0 else 1) ∧
      (∀ ms, SSHAuthMethod.publicKeys ms ∈ c.authMethods →
        ms = collectSigners cfg env (resolvedHostInfo cfg env hi).2) ∧
      (c.authMethods.countP (fun m => isPasswordMethod m) =
        if cfg.password = "" then 0 else 1) ∧
      c.authMethods.length ≤ 2 := by
  obtain ⟨hi, hhi, _, hauth, _⟩ := newClient_ok_inversion cfg env c h
  obtain ⟨f1, f2, f3, f4⟩ :=
    buildAuthMethods_facts
      (collectSigners cfg env (resolvedHostInfo cfg env hi).2) cfg.password
  rw [← hauth] at f1 f2 f3 f4
  exact ⟨hi, hhi, f1, f2, f3, f4⟩

/-- Witness for `newClient_auth_plan`: password-only construction. -/
theorem newClient_auth_plan_witness :
    ∃ hi, cfgPw.hostInfo = some hi ∧
      ((⟨⟨"h", 22, "u"⟩, [.password "pw"], false⟩ :
          ClientPlan).authMethods.countP (fun m => isPublicKeysMethod m) =
        if (collectSigners cfgPw envBare
            (resolvedHostInfo cfgPw envBare hi).2).isEmpty then 0 else 1) ∧
      (∀ ms, SSHAuthMethod.publicKeys ms ∈
          (⟨⟨"h", 22, "u"⟩, [.password "pw"], false⟩ : ClientPlan).authMethods →
        ms = collectSigners cfgPw envBare (resolvedHostInfo cfgPw envBare hi).2) ∧
      ((⟨⟨"h", 22, "u"⟩, [.password "pw"], false⟩ :
          ClientPlan).authMethods.countP (fun m => isPasswordMethod m) =
        if cfgPw.password = "" then 0 else 1) ∧
      (⟨⟨"h", 22, "u"⟩, [.password "pw"], false⟩ :
          ClientPlan).authMethods.length ≤ 2 :=
  newClient_auth_plan cfgPw envBare ⟨⟨"h", 22, "u"⟩, [.password "pw"], false⟩
    (by rfl)

/-- Each probing loop preserves the deduplication invariant: a signer for
a path is present only if the path is marked tried, and no path occurs
twice among the collected signers. -/
theorem tryAddKeys_dedup (env : Env) (pass : String) (l : List String)
    (path : String) :
    ∀ signers tried,
      (Signer.fileSig path ∈ signers → path ∈ tried) →
      signers.count (Signer.fileSig path) ≤ 1 →
      ((Signer.fileSig path ∈ (tryAddKeys env pass l (signers, tried)).1 →
          path ∈ (tryAddKeys env pass l (signers, tried)).2) ∧
        (tryAddKeys env pass l (signers, tried)).1.count
          (Signer.fileSig path) ≤ 1) := by
  induction l with
  | nil =>
    intro signers tried hmem hcnt
    exact ⟨hmem, hcnt⟩
  | cons keyPath rest ih =>
    intro signers tried hmem hcnt
    unfold tryAddKeys
    split_ifs with hin hload
    · exact ih signers tried hmem hcnt
    · by_cases hpk : path = keyPath
      · subst hpk
        have hnot : Signer.fileSig path ∉ signers := fun hmem2 => hin (hmem hmem2)
        have hz : signers.count (Signer.fileSig path) = 0 :=
          List.count_eq_zero.mpr hnot
        apply ih
        · intro _
          exact List.mem_append.mpr (Or.inr (List.mem_singleton.mpr rfl))
        · rw [List.count_append, hz]
          simp
      · apply ih
        · intro hm
          rcases List.mem_append.mp hm with hm | hm
          · exact List.mem_append.mpr (Or.inl (hmem hm))
          · exact absurd (List.mem_singleton.mp hm)
              (fun he => hpk (Signer.fileSig.inj he))
        · rw [List.count_append]
          have : ([Signer.fileSig keyPath].count (Signer.fileSig path)) = 0 := by
            simp [List.count_singleton, hpk]
          omega
    · exact ih signers tried hmem hcnt

/-- The full signer collection never loads the same path twice. -/
theorem collectSigners_dedup (cfg : Config) (env : Env)
    (idFiles : List String) (path : String) :
    (collectSigners cfg env idFiles).count (Signer.fileSig path) ≤ 1 := by
  have h0mem : Signer.fileSig path ∈ (agentStage env).1 →
      path ∈ (agentStage env).2 := by
    intro hm
    simp [agentStage] at hm
  have h0cnt : (agentStage env).1.count (Signer.fileSig path) ≤ 1 := by
    have : Signer.fileSig path ∉ (agentStage env).1 := by
      simp [agentStage]
    rw [List.count_eq_zero.mpr this]
    omega
  obtain ⟨h1mem0, h1cnt0⟩ :=
    tryAddKeys_dedup env "" idFiles path (agentStage env).1 (agentStage env).2
      h0mem h0cnt
  have h1mem : Signer.fileSig path ∈ (configFilesStage env idFiles).1 →
      path ∈ (configFilesStage env idFiles).2 := h1mem0
  have h1cnt : (configFilesStage env idFiles).1.count (Signer.fileSig path) ≤ 1 :=
    h1cnt0
  have h2 :
      (Signer.fileSig path ∈ (explicitKeyStage cfg env idFiles).1 →
        path ∈ (explicitKeyStage cfg env idFiles).2) ∧
      (explicitKeyStage cfg env idFiles).1.count (Signer.fileSig path) ≤ 1 := by
    unfold explicitKeyStage
    split_ifs with hc hload
    · by_cases hpk : path = cfg.privateKeyPath
      · subst hpk
        have hnot : Signer.fileSig cfg.privateKeyPath ∉
            (configFilesStage env idFiles).1 :=
          fun hmem2 => hc.2 (h1mem hmem2)
        constructor
        · intro _
          exact List.mem_append.mpr (Or.inr (List.mem_singleton.mpr rfl))
        · rw [List.count_append, List.count_eq_zero.mpr hnot]
          simp
      · constructor
        · intro hm
          rcases List.mem_append.mp hm with hm | hm
          · exact List.mem_append.mpr (Or.inl (h1mem hm))
          · exact absurd (List.mem_singleton.mp hm)
              (fun he => hpk (Signer.fileSig.inj he))
        · rw [List.count_append]
          have hz : ([Signer.fileSig cfg.privateKeyPath].count
              (Signer.fileSig path)) = 0 := by
            simp [List.count_singleton, hpk]
          omega
    · exact ⟨h1mem, h1cnt⟩
    · exact ⟨h1mem, h1cnt⟩
  exact (tryAddKeys_dedup env "" env.defaultKeyPaths path
    (explicitKeyStage cfg env idFiles).1 (explicitKeyStage cfg env idFiles).2
    h2.1 h2.2).2

/-- C9: however many discovery routes (SSH-config identity file, explicit
key path, default key path) reach the same private-key file, the
public-key method of a successfully constructed plan holds at most one
signer loaded from that path. -/
theorem credential_plan_dedup (cfg : Config) (env : Env) (c : ClientPlan)
    (path : String) (ms : List Signer) (h : NewClient cfg env = .ok c)
    (hm : SSHAuthMethod.publicKeys ms ∈ c.authMethods) :
    ms.count (Signer.fileSig path) ≤ 1 := by
  obtain ⟨hi, _, _, hauth, _⟩ := newClient_ok_inversion cfg env c h
  rw [hauth] at hm
  rw [(buildAuthMethods_facts _ cfg.password).2.1 ms hm]
  exact collectSigners_dedup cfg env _ path

/-- Witness for `credential_plan_dedup`: the path `/k` is reachable both
as the explicit key and as a default key path, yet contributes one
signer. -/
theorem credential_plan_dedup_witness :
    ([Signer.fileSig "/k"] : List Signer).count (Signer.fileSig "/k") ≤ 1 :=
  credential_plan_dedup cfgKey envKey
    ⟨⟨"h", 22, "u"⟩, [.publicKeys [.fileSig "/k"]], false⟩ "/k"
    [.fileSig "/k"] (by rfl) (by decide)

/-- The number of `*` characters never exceeds the byte length. -/
theorem count_star_le_utf8Len (cs : List Char) :
    cs.count '*' ≤ (cs.map Char.utf8Size).sum := by
  induction cs with
  | nil => simp
  | cons c rest ih =>
    rw [List.count_cons]
    simp only [List.map_cons, List.sum_cons]
    have h1 := Char.utf8Size_pos c
    by_cases h : c = ('*' : Char)
    · have hb : (c == '*') = true := beq_iff_eq.mpr h
      simp only [hb, if_true]
      omega
    · have hb : (c == '*') = false := by
        rw [Bool.eq_false_iff]
        intro hx
        exact h (beq_iff_eq.mp hx)
      simp only [hb, Bool.false_eq_true, if_false]
      omega

/-- Every specificity score is nonnegative, so the catch-all
pattern `*` (score 0) has the lowest possible score. -/
theorem patternSpecificity_nonneg (p : String) : 0 ≤ patternSpecificity p := by
  unfold patternSpecificity
  split_ifs with h
  · exact le_refl 0
  · have hc := count_star_le_utf8Len p.data
    unfold utf8Len
    omega

/-- Loop invariants of the wildcard scan: the best specificity never
decreases; the final state is either untouched or holds a matching entry
from the scanned list at its own specificity; and the specificity of
every matching entry is bounded by the final best specificity. -/
theorem bestWildcard_spec (host : String) (l : List (String × SSHConfigHost)) :
    ∀ (b : Option SSHConfigHost) (s : Int),
      s ≤ (bestWildcard host l (b, s)).2 ∧
      (bestWildcard host l (b, s) = (b, s) ∨
        ∃ p e, (p, e) ∈ l ∧ matchHostPattern p host = true ∧
          (bestWildcard host l (b, s)).1 = some e ∧
          (bestWildcard host l (b, s)).2 = patternSpecificity p ∧
          s < patternSpecificity p) ∧
      (∀ q f, (q, f) ∈ l → matchHostPattern q host = true →
        patternSpecificity q ≤ (bestWildcard host l (b, s)).2) := by
  induction l with
  | nil =>
    intro b s
    refine ⟨le_refl s, Or.inl rfl, ?_⟩
    intro q f hq
    simp at hq
  | cons hd rest ih =>
    obtain ⟨p, e⟩ := hd
    intro b s
    unfold bestWildcard
    split_ifs with hc
    · obtain ⟨ih1, ih2, ih3⟩ := ih (some e) (patternSpecificity p)
      refine ⟨le_trans (le_of_lt hc.2) ih1, ?_, ?_⟩
      · rcases ih2 with h | ⟨p2, e2, hmem, hm2, h1, h2, h3⟩
        · exact Or.inr ⟨p, e, List.mem_cons_self _ _, hc.1,
            by rw [h], by rw [h], hc.2⟩
        · exact Or.inr ⟨p2, e2, List.mem_cons_of_mem _ hmem, hm2, h1, h2,
            lt_trans hc.2 h3⟩
      · intro q f hq hmq
        rcases List.mem_cons.mp hq with h | h
        · injection h with hq1 _
          rw [hq1]
          exact ih1
        · exact ih3 q f h hmq
    · obtain ⟨ih1, ih2, ih3⟩ := ih b s
      refine ⟨ih1, ?_, ?_⟩
      · rcases ih2 with h | ⟨p2, e2, hmem, hm2, h1, h2, h3⟩
        · exact Or.inl h
        · exact Or.inr ⟨p2, e2, List.mem_cons_of_mem _ hmem, hm2, h1, h2, h3⟩
      · intro q f hq hmq
        rcases List.mem_cons.mp hq with h | h
        · injection h with hq1 _
          subst hq1
          rw [not_and] at hc
          have h4 := hc hmq
          push_neg at h4
          exact le_trans h4 ih1
        · exact ih3 q f h hmq

/-- When the wildcard scan runs (no exact match) and some pattern matches,
`GetHost` returns the entry of a matching pattern of maximal
specificity. -/
theorem getHost_wildcard_max (tbl : List (String × SSHConfigHost))
    (host : String) (hexact : tbl.find? (fun x => x.1 == host) = none)
    (p₀ : String) (e₀ : SSHConfigHost) (h₀ : (p₀, e₀) ∈ tbl)
    (hm : matchHostPattern p₀ host = true) :
    ∃ p e, (p, e) ∈ tbl ∧ matchHostPattern p host = true ∧
      GetHost tbl host = some e ∧
      ∀ q f, (q, f) ∈ tbl → matchHostPattern q host = true →
        patternSpecificity q ≤ patternSpecificity p := by
  obtain ⟨h1, h2, h3⟩ := bestWildcard_spec host tbl none (-1)
  rcases h2 with h | ⟨p, e, hmem, hmp, hr1, hr2, _⟩
  · exfalso
    have hb := h3 p₀ e₀ h₀ hm
    rw [h] at hb
    have hn := patternSpecificity_nonneg p₀
    simp only at hb
    omega
  · refine ⟨p, e, hmem, hmp, ?_, ?_⟩
    · unfold GetHost
      rw [hexact]
      exact hr1
    · intro q f hq hmq
      have hb := h3 q f hq hmq
      rw [hr2] at hb
      exact hb

/-- With no exact key and no matching wildcard, `GetHost` returns
nothing. -/
theorem getHost_none_of_no_match (tbl : List (String × SSHConfigHost))
    (host : String) (hexact : tbl.find? (fun x => x.1 == host) = none)
    (h : ∀ p e, (p, e) ∈ tbl → ¬matchHostPattern p host = true) :
    GetHost tbl host = none := by
  obtain ⟨_, h2, _⟩ := bestWildcard_spec host tbl none (-1)
  rcases h2 with heq | ⟨p, e, hmem, hmp, _, _, _⟩
  · unfold GetHost
    rw [hexact, heq]
  · exact absurd hmp (h p e hmem)

/-- Exact lookup in a table with pairwise-distinct pattern keys finds the
entry recorded for the key. -/
theorem find?_exact (tbl : List (String × SSHConfigHost)) (host : String)
    (e : SSHConfigHost) (hnd : (tbl.map Prod.fst).Nodup)
    (hmem : (host, e) ∈ tbl) :
    tbl.find? (fun x => x.1 == host) = some (host, e) := by
  induction tbl with
  | nil => simp at hmem
  | cons hd rest ih =>
    rw [List.map_cons, List.nodup_cons] at hnd
    by_cases h : (hd.1 == host) = true
    · rw [List.find?_cons, h]
      show some hd = some (host, e)
      rw [beq_iff_eq] at h
      rcases List.mem_cons.mp hmem with hm | hm
      · rw [← hm]
      · exfalso
        apply hnd.1
        rw [h]
        exact List.mem_map.mpr ⟨(host, e), hm, rfl⟩
    · rw [List.find?_cons]
      have hb : (hd.1 == host) = false := by
        rw [Bool.eq_false_iff]
        exact h
      rw [hb]
      show List.find? (fun x => x.1 == host) rest = some (host, e)
      apply ih hnd.2
      rcases List.mem_cons.mp hmem with hm | hm
      · exfalso
        apply h
        rw [← hm]
        exact beq_self_eq_true _
      · exact hm

/-- C5: an exact pattern key is chosen over any wildcard; otherwise, among
all matching patterns, an entry of maximal specificity (pattern length
minus `*` count) is chosen; and the one-character pattern `*` has the
lowest possible specificity, 0. -/
theorem getHost_lookup_spec (tbl : List (String × SSHConfigHost))
    (host : String) :
    (∀ e, (tbl.map Prod.fst).Nodup → (host, e) ∈ tbl →
      GetHost tbl host = some e) ∧
    (tbl.find? (fun x => x.1 == host) = none →
      ∀ p₀ e₀, (p₀, e₀) ∈ tbl → matchHostPattern p₀ host = true →
        ∃ p e, (p, e) ∈ tbl ∧ matchHostPattern p host = true ∧
          GetHost tbl host = some e ∧
          ∀ q f, (q, f) ∈ tbl → matchHostPattern q host = true →
            patternSpecificity q ≤ patternSpecificity p) ∧
    patternSpecificity "*" = 0 ∧
    (∀ p, 0 ≤ patternSpecificity p) := by
  refine ⟨?_, ?_, by decide, patternSpecificity_nonneg⟩
  · intro e hnd hmem
    unfold GetHost
    rw [find?_exact tbl host e hnd hmem]
  · intro hexact p₀ e₀ h₀ hm
    exact getHost_wildcard_max tbl host hexact p₀ e₀ h₀ hm

/-- Witness for `getHost_lookup_spec`: over the table with patterns
`*.prod.example.com` and `*`, the host `db1.prod.example.com` resolves to
a maximal matching wildcard; with an exact entry added, the exact entry
wins. -/
theorem getHost_lookup_spec_witness :
    GetHost [("db1.prod.example.com", entExact), ("*", entStar)]
      "db1.prod.example.com" = some entExact ∧
    (∃ p e, (p, e) ∈ [("*.prod.example.com", entProd), ("*", entStar)] ∧
      matchHostPattern p "db1.prod.example.com" = true ∧
      GetHost [("*.prod.example.com", entProd), ("*", entStar)]
        "db1.prod.example.com" = some e ∧
      ∀ q f, (q, f) ∈ [("*.prod.example.com", entProd), ("*", entStar)] →
        matchHostPattern q "db1.prod.example.com" = true →
        patternSpecificity q ≤ patternSpecificity p) := by
  constructor
  · exact (getHost_lookup_spec
      [("db1.prod.example.com", entExact), ("*", entStar)]
      "db1.prod.example.com").1 entExact (by decide) (by decide)
  · exact (getHost_lookup_spec
      [("*.prod.example.com", entProd), ("*", entStar)]
      "db1.prod.example.com").2.1 (by decide) "*" entStar (by decide)
      (by decide)

/-- C7 counterexample: the patterns `a*` and `*a` both match the host
`aba` with equal specificity; the same pattern table presented in the two
iteration orders a Go map `range` may produce yields two different chosen
entries, so tie-breaking is not deterministic across evaluations. -/
theorem getHost_tie_depends_on_iteration_order :
    List.Perm [("a*", entA), ("*a", entB)] [("*a", entB), ("a*", entA)] ∧
    patternSpecificity "a*" = patternSpecificity "*a" ∧
    GetHost [("a*", entA), ("*a", entB)] "aba" = some entA ∧
    GetHost [("*a", entB), ("a*", entA)] "aba" = some entB ∧
    entA ≠ entB := by
  refine ⟨by decide, by decide, by decide, by decide, by decide⟩

/-- C7 amended: for a fixed iteration order the lookup is a pure function;
and whenever no pattern key equals the target and no two matching patterns
tie at the same specificity, the chosen entry is independent of the
iteration order.  (With a tie, the chosen entry depends on the order, per
the counterexample.) -/
theorem getHost_deterministic_without_ties
    (tbl tbl2 : List (String × SSHConfigHost)) (host : String)
    (hperm : List.Perm tbl tbl2)
    (hnoexact : ∀ x ∈ tbl, x.1 ≠ host)
    (hdistinct : ∀ x ∈ tbl, ∀ y ∈ tbl,
      matchHostPattern x.1 host = true → matchHostPattern y.1 host = true →
      patternSpecificity x.1 = patternSpecificity y.1 → x = y) :
    GetHost tbl host = GetHost tbl2 host := by
  have hfind1 : tbl.find? (fun x => x.1 == host) = none := by
    rw [List.find?_eq_none]
    intro x hx
    simpa using hnoexact x hx
  have hfind2 : tbl2.find? (fun x => x.1 == host) = none := by
    rw [List.find?_eq_none]
    intro x hx
    simpa using hnoexact x (hperm.mem_iff.mpr hx)
  by_cases hmatch : ∃ p e, (p, e) ∈ tbl ∧ matchHostPattern p host = true
  · obtain ⟨p₀, e₀, h₀, hm₀⟩ := hmatch
    obtain ⟨p, e, hmem, hmp, hg, hmax⟩ :=
      getHost_wildcard_max tbl host hfind1 p₀ e₀ h₀ hm₀
    obtain ⟨p2, e2, hmem2, hmp2, hg2, hmax2⟩ :=
      getHost_wildcard_max tbl2 host hfind2 p₀ e₀ (hperm.mem_iff.mp h₀) hm₀
    have hle1 : patternSpecificity p2 ≤ patternSpecificity p :=
      hmax p2 e2 (hperm.mem_iff.mpr hmem2) hmp2
    have hle2 : patternSpecificity p ≤ patternSpecificity p2 :=
      hmax2 p e (hperm.mem_iff.mp hmem) hmp
    have heq : ((p, e) : String × SSHConfigHost) = (p2, e2) :=
      hdistinct (p, e) hmem (p2, e2) (hperm.mem_iff.mpr hmem2) hmp hmp2
        (le_antisymm hle2 hle1)
    rw [hg, hg2]
    injection heq with _ h2
    rw [h2]
  · push_neg at hmatch
    have hg1 : GetHost tbl host = none :=
      getHost_none_of_no_match tbl host hfind1
        (fun p e hm => hmatch p e hm)
    have hg2 : GetHost tbl2 host = none :=
      getHost_none_of_no_match tbl2 host hfind2
        (fun p e hm => hmatch p e (hperm.mem_iff.mpr hm))
    rw [hg1, hg2]

/-- Witness for `getHost_deterministic_without_ties`: patterns `a*` and
`*` match `abc` with distinct specificities; both iteration orders select
the same entry. -/
theorem getHost_deterministic_without_ties_witness :
    GetHost [("a*", entA), ("*", entStar)] "abc" =
      GetHost [("*", entStar), ("a*", entA)] "abc" :=
  getHost_deterministic_without_ties
    [("a*", entA), ("*", entStar)] [("*", entStar), ("a*", entA)] "abc"
    (by decide) (by decide) (by decide)

/-- C8: on a connected session with a working session channel, a cd
command whose remote resolve run exits nonzero leaves the tracked
directory unchanged and surfaces the remote stderr and the exit code,
while a successful resolve run updates the tracked directory to the
printed (trimmed, nonempty) absolute path. -/
theorem execute_cd_tracking (env : RemoteEnv) (c : ClientState)
    (command0 : String) (hconn : c.isConnected = true)
    (hsess : env.sessionOk = true)
    (hcd : isCdCommand (strTrim command0) = true) :
    (∀ code,
      (env.run (cdResolveCmd c.cwd (cdTargetOf (strTrim command0)))).outcome
          = .exit code →
      Execute env c command0 =
        (c, { stdout :=
                (env.run (cdResolveCmd c.cwd
                  (cdTargetOf (strTrim command0)))).stdout,
              stderr :=
                (env.run (cdResolveCmd c.cwd
                  (cdTargetOf (strTrim command0)))).stderr,
              exitCode := code, error := none })) ∧
    ((env.run (cdResolveCmd c.cwd (cdTargetOf (strTrim command0)))).outcome
        = .ok →
      Execute env c command0 =
        (if strTrim (env.run (cdResolveCmd c.cwd
              (cdTargetOf (strTrim command0)))).stdout ≠ "" then
           { c with cwd := strTrim (env.run (cdResolveCmd c.cwd
              (cdTargetOf (strTrim command0)))).stdout }
         else c, {})) := by
  have hstep : Execute env c command0 =
      cdApply c (env.run (cdResolveCmd c.cwd (cdTargetOf (strTrim command0)))) := by
    unfold Execute
    rw [if_neg (by simp [hconn]), if_neg (by simp [hsess]), if_pos hcd]
  constructor
  · intro code hout
    rw [hstep]
    unfold cdApply
    rw [hout]
  · intro hout
    rw [hstep]
    unfold cdApply
    rw [hout]

/-- Witness for `execute_cd_tracking`: a failing and a succeeding cd on a
concrete connected client. -/
theorem execute_cd_tracking_witness :
    Execute envCdFail clientConn "cd /nope" =
      (clientConn,
        { stdout := "", stderr := "cd: /nope: No such file or directory",
          exitCode := 1, error := none }) ∧
    Execute envCdOk clientConn "cd /ok" =
      ({ clientConn with cwd := "/resolved" }, {}) := by
  constructor
  · exact (execute_cd_tracking envCdFail clientConn "cd /nope" (by rfl)
      (by rfl) (by decide)).1 1 (by rfl)
  · have h := (execute_cd_tracking envCdOk clientConn "cd /ok" (by rfl)
      (by rfl) (by decide)).2 (by rfl)
    rw [h]
    decide

/-- C2 (modelled from the spec): a `cd` on the Local Executor updates the
tracked directory to the locally resolved target path; any other command
runs with the tracked directory as its working directory; composed, after
a successful `cd` a subsequent non-cd command observes the new tracked
directory. -/
theorem localClient_tracks_cwd (fs : LocalFS) (c : LocalClientState)
    (command cmd2 t dir : String) :
    (parseCdTarget command = some t →
      fs.resolve c.cwd (if t = "" then fs.home else t) = some dir →
      (LocalExecute fs c command).1.cwd = dir) ∧
    (parseCdTarget cmd2 = none →
      LocalExecute fs c cmd2 = (c, fs.run c.cwd cmd2)) ∧
    (parseCdTarget command = some t →
      fs.resolve c.cwd (if t = "" then fs.home else t) = some dir →
      parseCdTarget cmd2 = none →
      (LocalExecute fs (LocalExecute fs c command).1 cmd2).2 =
        fs.run dir cmd2) := by
  refine ⟨?_, ?_, ?_⟩
  · intro hp hres
    unfold LocalExecute
    rw [hp]
    simp only
    rw [hres]
  · intro hp
    unfold LocalExecute
    rw [hp]
  · intro hp hres hp2
    have h1 : (LocalExecute fs c command).1.cwd = dir := by
      unfold LocalExecute
      rw [hp]
      simp only
      rw [hres]
    set st1 := (LocalExecute fs c command).1 with hst
    unfold LocalExecute
    rw [hp2]
    show fs.run st1.cwd cmd2 = fs.run dir cmd2
    rw [h1]

/-- Witness for `localClient_tracks_cwd`: `cd /d` then a plain command on
a concrete local filesystem. -/
theorem localClient_tracks_cwd_witness :
    (LocalExecute fsW ⟨"/start"⟩ "cd /d").1.cwd = "/d" ∧
    LocalExecute fsW ⟨"/start"⟩ "ls" = (⟨"/start"⟩, fsW.run "/start" "ls") ∧
    (LocalExecute fsW (LocalExecute fsW ⟨"/start"⟩ "cd /d").1 "ls").2 =
      fsW.run "/d" "ls" := by
  obtain ⟨h1, h2, h3⟩ :=
    localClient_tracks_cwd fsW ⟨"/start"⟩ "cd /d" "ls" "/d" "/d"
  exact ⟨h1 (by decide) (by decide), h2 (by decide),
    h3 (by decide) (by decide) (by decide)⟩

/-- Equation of `escQuote` on the empty list. -/
theorem escQuote_nil : escQuote [] = [] := rfl

/-- Equation of `escQuote` on a cons. -/
theorem escQuote_cons (c : Char) (rest : List Char) :
    escQuote (c :: rest) =
      (if c = sq then sq :: bs :: sq :: sq :: escQuote rest
       else c :: escQuote rest) := rfl

/-- One-step equation of the splitter: end of input outside quotes. -/
theorem shellFields_nil_norm (acc : List Char) (started : Bool)
    (ws : List String) :
    shellFields [] .norm acc started ws =
      some (if started then ws ++ [⟨acc⟩] else ws) := rfl

/-- One-step equation of the splitter: a character outside quotes. -/
theorem shellFields_cons_norm (c : Char) (rest : List Char) (acc : List Char)
    (started : Bool) (ws : List String) :
    shellFields (c :: rest) .norm acc started ws =
      (if c = ' ' ∨ c = '\t' then
        if started then shellFields rest .norm [] false (ws ++ [⟨acc⟩])
        else shellFields rest .norm [] false ws
      else if c = sq then shellFields rest .insq acc true ws
      else if c = '"' then shellFields rest .indq acc true ws
      else if c = bs then shellFields rest .esc acc started ws
      else if shellMeta c then none
      else shellFields rest .norm (acc ++ [c]) true ws) := rfl

/-- One-step equation of the splitter: a character inside single
quotes. -/
theorem shellFields_cons_insq (c : Char) (rest : List Char) (acc : List Char)
    (started : Bool) (ws : List String) :
    shellFields (c :: rest) .insq acc started ws =
      (if c = sq then shellFields rest .norm acc true ws
       else shellFields rest .insq (acc ++ [c]) true ws) := rfl

/-- One-step equation of the splitter: the character after an unquoted
backslash is literal. -/
theorem shellFields_cons_esc (c : Char) (rest : List Char) (acc : List Char)
    (started : Bool) (ws : List String) :
    shellFields (c :: rest) .esc acc started ws =
      shellFields rest .norm (acc ++ [c]) true ws := rfl

/-- Scanning the escaped body of a string inside single quotes consumes it
entirely, closes at the final quote, and appends exactly the original
characters to the current word. -/
theorem shellFields_escQuote (cs : List Char) :
    ∀ (acc : List Char) (ws : List String),
      shellFields (escQuote cs ++ [sq]) .insq acc true ws =
        some (ws ++ [⟨acc ++ cs⟩]) := by
  induction cs with
  | nil =>
    intro acc ws
    rw [escQuote_nil, List.nil_append]
    rw [shellFields_cons_insq, if_pos rfl, shellFields_nil_norm]
    simp
  | cons c rest ih =>
    intro acc ws
    by_cases h : c = sq
    · subst h
      rw [escQuote_cons, if_pos rfl]
      simp only [List.cons_append]
      rw [shellFields_cons_insq, if_pos rfl]
      rw [shellFields_cons_norm, if_neg (by decide), if_neg (by decide),
        if_neg (by decide), if_pos rfl]
      rw [shellFields_cons_esc]
      rw [shellFields_cons_norm, if_neg (by decide), if_pos rfl]
      rw [ih (acc ++ [sq]) ws]
      simp
    · rw [escQuote_cons, if_neg h]
      simp only [List.cons_append]
      rw [shellFields_cons_insq, if_neg h]
      rw [ih (acc ++ [c]) ws]
      simp

/-- C10: for every string, the shell-escaped form parses back as exactly
one literal word whose value is the original string — no quote, dollar,
backtick, pipe, ampersand, semicolon or space in it is interpreted. -/
theorem shellEscape_roundtrip (s : String) :
    parseShellFields (ShellEscape s) = some [s] := by
  show shellFields (sq :: (escQuote s.data ++ [sq])) .norm [] false [] =
    some [s]
  rw [shellFields_cons_norm, if_neg (by decide), if_pos rfl]
  rw [shellFields_escQuote s.data [] []]
  simp only [List.nil_append]

end Sherlock
